import Mathlib

/-!
Verification of the CSV-to-spreadsheet annotation tool (`main.py`).

The program reconciles a folder of per-subject experiment CSV files against a
master spreadsheet.  For each CSV file it derives a dataset name from the
filename, finds the matching spreadsheet row by exact equality on the
`Name_in_database` column, runs a fixed battery of metric functions over the
CSV's columns, and writes the results into the matched row.  At the end it
appends one literal summary row.

The embedding below models cell values, the CSV data frame, every metric
function, and the update driver, translated from the source.  Machine-level
concerns (fonts, alignments, file I/O, progress bars) are out of scope: they
do not affect any cell value.
-/

/-- A cell value: pandas/openpyxl cells are NaN/empty, numbers, or strings. -/
inductive Value
  | na : Value
  | int : Int → Value
  | str : String → Value
deriving DecidableEq

instance [DecidableEq ε] [DecidableEq α] : DecidableEq (Except ε α) := fun a b =>
  match a, b with
  | Except.error e, Except.error f =>
    if h : e = f then isTrue (by rw [h]) else isFalse (fun hh => h (by cases hh; rfl))
  | Except.error _, Except.ok _ => isFalse (fun h => Except.noConfusion h)
  | Except.ok _, Except.error _ => isFalse (fun h => Except.noConfusion h)
  | Except.ok x, Except.ok y =>
    if h : x = y then isTrue (by rw [h]) else isFalse (fun hh => h (by cases hh; rfl))

/-- The sentinel written when a metric is not applicable: the string "no". -/
def noVal : Value := Value.str "no"

/-- The affirmative flag value: the string "yes". -/
def yesVal : Value := Value.str "yes"

/-- A loaded CSV file: column labels plus the grid of cell values
(row-major, aligned with `cols`). -/
structure Csv where
  cols : List String
  cells : List (List Value)
deriving DecidableEq

/-- First index satisfying a predicate (models `Index[...][0]` lookups). -/
def findIdxA (p : α → Bool) : List α → Option Nat
  | [] => none
  | a :: as => if p a then some 0 else (findIdxA p as).map (· + 1)

/-- Column values for a label: the column at the first position whose label
matches, padded with NaN for short rows (models `csv_df[label]`). -/
def Csv.col (csv : Csv) (c : String) : List Value :=
  match findIdxA (fun c' => decide (c' = c)) csv.cols with
  | none => []
  | some j => csv.cells.map (fun r => r.getD j Value.na)

/-- The non-null entries of a column (pandas drops NaN in `nunique`,
`max`, and groupby keys). -/
def nonNA (vs : List Value) : List Value :=
  vs.filter (fun v => decide (¬ v = Value.na))

/-- `Series.nunique`: the number of distinct non-null values. -/
def nunique (vs : List Value) : Nat :=
  (nonNA vs).dedup.length

/-- Lexicographic strict order on code-point lists (Python string `<`). -/
def lexLtN : List Nat → List Nat → Bool
  | [], [] => false
  | [], _ :: _ => true
  | _ :: _, [] => false
  | a :: as, b :: bs => decide (a < b) || (decide (a = b) && lexLtN as bs)

/-- Python string `<` via code points. -/
def strLt (a b : String) : Bool :=
  lexLtN (a.data.map Char.toNat) (b.data.map Char.toNat)

/-- Python `x > acc` on two cell values; comparing an int with a string
raises `TypeError`, modelled as `Except.error`. -/
def pyGt : Value → Value → Except Unit Bool
  | Value.int a, Value.int b => Except.ok (decide (b < a))
  | Value.str a, Value.str b => Except.ok (strLt b a)
  | _, _ => Except.error ()

/-- Total `a ≤ b` on same-kind cell values (used only in specifications). -/
def valLe : Value → Value → Bool
  | Value.int a, Value.int b => decide (a ≤ b)
  | Value.str a, Value.str b => ! strLt b a
  | _, _ => false

/-- One step of the running maximum (keeps the accumulator on ties). -/
def valMaxStep (acc x : Value) : Except Unit Value :=
  match pyGt x acc with
  | Except.error e => Except.error e
  | Except.ok g => Except.ok (if g then x else acc)

/-- `Series.max` with NaN skipped: NaN on an empty/all-NaN column, the
largest value otherwise, `TypeError` on mixed int/string data. -/
def seriesMax (vs : List Value) : Except Unit Value :=
  match nonNA vs with
  | [] => Except.ok Value.na
  | v :: rest => rest.foldlM valMaxStep v

/-- Maximum of a nonempty list of naturals (`Series.max` of group sizes). -/
def natsMax (n : Nat) (ns : List Nat) : Nat := ns.foldl Nat.max n

/-- Minimum of a nonempty list of naturals (`Series.min` of group sizes). -/
def natsMin (n : Nat) (ns : List Nat) : Nat := ns.foldl Nat.min n

/-- `groupby(col).size()`: row count for each distinct non-null key. -/
def groupSizes (vs : List Value) : List Nat :=
  ((nonNA vs).dedup).map (fun k => (vs.filter (fun v => decide (v = k))).length)

/-- The per-subject identifier column name used by `check_block_min_max`. -/
def subjKey : String := "Subj_idx"

/-- The spreadsheet identifier column name used for row matching. -/
def nameKey : String := "Name_in_database"

/-- `groupby('Subj_idx')[blockCol].nunique()`: for each distinct non-null
subject, the number of distinct non-null block values among its rows. -/
def perSubjectNunique (csv : Csv) (blockCol : String) : List Nat :=
  let subj := csv.col subjKey
  let blocks := csv.col blockCol
  ((nonNA subj).dedup).map
    (fun k => nunique (((subj.zip blocks).filter (fun p => decide (p.1 = k))).map Prod.snd))

/-- `next((col for col in alt_columns if col in csv_df.columns), None)`:
the first synonym (in priority order) present among the CSV's columns. -/
def first_present (altCols : List String) (csv : Csv) : Option String :=
  altCols.find? (fun c => decide (c ∈ csv.cols))

/-- `check_accuracy`: "yes" iff the literal column `Accuracy` is present;
the synonym-list argument is unused in the source. -/
def check_accuracy (csv : Csv) (altCols : List String) : Value :=
  if "Accuracy" ∈ csv.cols then yesVal else noVal

/-- `check_num_blocks`: distinct-value count of the first block synonym
present, else the sentinel. -/
def check_num_blocks (csv : Csv) (altCols : List String) : Value :=
  match first_present altCols csv with
  | none => noVal
  | some c => Value.int (nunique (csv.col c))

/-- `check_num_trails`: maximum of the first trial synonym present, else the
sentinel.  `Series.max` may raise on mixed-type data, hence `Except`. -/
def check_num_trails (csv : Csv) (altCols : List String) : Except Unit Value :=
  match first_present altCols csv with
  | none => Except.ok noVal
  | some c => seriesMax (csv.col c)

/-- `check_rt_confidence`: "yes" iff some confidence synonym is present. -/
def check_rt_confidence (csv : Csv) (altCols : List String) : Value :=
  match first_present altCols csv with
  | none => noVal
  | some _ => yesVal

/-- `check_trial_in_block`: per-block row counts via
`groupby(block_col).size()`, returning their max and min; the sentinel pair
when no synonym is present; NaN twice when there are no groups. -/
def check_trial_in_block (csv : Csv) (altCols : List String) : Value × Value :=
  match first_present altCols csv with
  | none => (noVal, noVal)
  | some c =>
    match groupSizes (csv.col c) with
    | [] => (Value.na, Value.na)
    | n :: ns => (Value.int (natsMax n ns), Value.int (natsMin n ns))

/-- `check_blank_values`: "yes" iff some cell anywhere is null. -/
def check_blank_values (csv : Csv) (altCols : List String) : Value :=
  if csv.cols.any (fun c => (csv.col c).any (fun v => decide (v = Value.na))) then
    yesVal
  else noVal

/-- `check_block_min_max`: per-subject distinct-block counts via
`groupby('Subj_idx')[block_col].nunique()`, returning their max and min;
the sentinel pair when no block synonym is present, when `Subj_idx` is
absent, or when the grouping is empty. -/
def check_block_min_max (csv : Csv) (altCols : List String) : Value × Value :=
  match first_present altCols csv with
  | none => (noVal, noVal)
  | some c =>
    if subjKey ∈ csv.cols then
      match perSubjectNunique csv c with
      | [] => (noVal, noVal)
      | n :: ns => (Value.int (natsMax n ns), Value.int (natsMin n ns))
    else (noVal, noVal)

/-- The accuracy synonym list from the source. -/
def accuracy_columns : List String :=
  ["Accuracy", "Accuracy_col", "Accuracy_let", "ErrorDirection",
   "ErrorDirectionJudgment", "Accuracy_Motion", "Accuracy_Color"]

/-- The block synonym list from the source. -/
def block_columns : List String :=
  ["block", "blocks", "Block", "Blocks", "BlockNumber", "Block_count",
   "Int.Block", "block_type", "BlockID", "Block_Type", "NumBlock", "blocki"]

/-- The trial synonym list from the source. -/
def trial_columns : List String :=
  ["trials", "trial", "Trial", "NTrialInCond", "triali"]

/-- The confidence synonym list from the source. -/
def confidence_columns : List String :=
  ["RT_confidence", "RT_conf", "RT_decConf", "RT_decConf_1", "RT_decConf_2"]

/-- The literal token the filename is split on: `'data_'`. -/
def dataTok : List Char := ['d', 'a', 't', 'a', '_']

/-- The literal extension token removed from the filename: `'.csv'`. -/
def csvTok : List Char := ['.', 'c', 's', 'v']

/-- Is `p` a prefix of `s`?  (Substring match at the current position.) -/
def isPre : List Char → List Char → Bool
  | [], _ => true
  | _ :: _, [] => false
  | a :: as, b :: bs => a == b && isPre as bs

/-- Does `sub` occur as a contiguous sublist?  (Python `sub in s`.) -/
def containsSub (sub : List Char) : List Char → Bool
  | [] => sub.isEmpty
  | c :: rest => isPre sub (c :: rest) || containsSub sub rest

/-- The remainder after the first occurrence of `sep`, scanning left to
right; `none` when `sep` does not occur. -/
def dropAfterFirst (sep : List Char) : List Char → Option (List Char)
  | [] => none
  | c :: rest =>
    if isPre sep (c :: rest) then some (List.drop sep.length (c :: rest))
    else dropAfterFirst sep rest

/-- Fuelled last piece of a `split(sep)`: repeatedly jump past the first
occurrence of `sep`; what remains when none occurs is the last piece. -/
def lastPieceF (sep : List Char) : Nat → List Char → List Char
  | 0, s => s
  | n + 1, s =>
    match dropAfterFirst sep s with
    | some r => lastPieceF sep n r
    | none => s

/-- `file.split(sep)[-1]` for nonempty `sep`. -/
def splitLastPiece (sep s : List Char) : List Char :=
  lastPieceF sep s.length s

/-- Fuelled `str.replace(pat, '')`: delete every occurrence of `pat`,
scanning left to right without overlap. -/
def replaceAllF (pat : List Char) : Nat → List Char → List Char
  | 0, s => s
  | _ + 1, [] => []
  | n + 1, c :: rest =>
    if isPre pat (c :: rest) && ! pat.isEmpty then
      replaceAllF pat n (List.drop pat.length (c :: rest))
    else c :: replaceAllF pat n rest

/-- `s.replace(pat, '')` for nonempty `pat`. -/
def replaceAllSub (pat s : List Char) : List Char :=
  replaceAllF pat s.length s

/-- `file.split('data_')[-1].replace('.csv', '')`: the dataset name the
program derives from a CSV filename. -/
def data_name (file : List Char) : List Char :=
  replaceAllSub csvTok (splitLastPiece dataTok file)

/-- `data_name` on `String`s (filenames arrive as strings). -/
def data_nameS (file : String) : String :=
  String.mk (data_name file.data)

/-- Header-row lookup `xlsx_df.columns[xlsx_df.iloc[0] == label]`: the first
column position whose header cell equals the string `label`. -/
def findColIdx (orig : List (List Value)) (label : String) : Option Nat :=
  match orig with
  | [] => none
  | header :: _ => findIdxA (fun v => decide (v = Value.str label)) header

/-- Row lookup `xlsx_df[xlsx_df.iloc[:, nc] == key].index[0]`: the first row
(header included) whose cell in column `nc` equals the string `key`. -/
def matchRowIdx (orig : List (List Value)) (nc : Nat) (key : String) : Option Nat :=
  findIdxA (fun r => decide (r.getD nc Value.na = Value.str key)) orig

/-- `ws.cell(row, column=j+1).value = v`: write position `j` of a row,
extending the row with empty cells when it is shorter. -/
def setCellRow (row : List Value) (j : Nat) (v : Value) : List Value :=
  if j < row.length then row.set j v
  else row ++ List.replicate (j - row.length) Value.na ++ [v]

/-- Cell of a sheet at row `i`, column `j` (missing cells read as empty). -/
def getCell (sheet : List (List Value)) (i j : Nat) : Value :=
  (sheet.getD i []).getD j Value.na

/-- `check_and_update`: look the target column up in the loaded snapshot
`orig`; when absent, do nothing; when present, evaluate the metric and write
its value into row `i` of the live sheet.  A metric error propagates. -/
def check_and_update (orig sheet : List (List Value)) (i : Nat)
    (columnName : String) (comp : Except Unit Value) :
    Except Unit (List (List Value)) :=
  match findColIdx orig columnName with
  | none => Except.ok sheet
  | some j =>
    match comp with
    | Except.error e => Except.error e
    | Except.ok v => Except.ok (sheet.set i (setCellRow (sheet.getD i []) j v))

/-- The target column names written for one CSV file, in source order. -/
def target_names : List String :=
  ["Accuracy", "Num_Blocks", "Num_Trails", "RT_Confidence",
   "Max_Trial_in_block", "Min_Trial_in_block", "Blank_Value",
   "Max_Num_Blocks", "Min_Num_Blocks"]

/-- The metric battery for one CSV file: each target column paired with the
computed value (pure metrics wrapped in `Except.ok`), in source order. -/
def metric_writes (csv : Csv) : List (String × Except Unit Value) :=
  [("Accuracy", Except.ok (check_accuracy csv accuracy_columns)),
   ("Num_Blocks", Except.ok (check_num_blocks csv block_columns)),
   ("Num_Trails", check_num_trails csv trial_columns),
   ("RT_Confidence", Except.ok (check_rt_confidence csv confidence_columns)),
   ("Max_Trial_in_block", Except.ok (check_trial_in_block csv block_columns).1),
   ("Min_Trial_in_block", Except.ok (check_trial_in_block csv block_columns).2),
   ("Blank_Value", Except.ok (check_blank_values csv [])),
   ("Max_Num_Blocks", Except.ok (check_block_min_max csv block_columns).1),
   ("Min_Num_Blocks", Except.ok (check_block_min_max csv block_columns).2)]

/-- The value the battery produces for a target column, when that value is
computed without error. -/
def written_ok (csv : Csv) (t : String) : Option Value :=
  match (metric_writes csv).lookup t with
  | some (Except.ok v) => some v
  | _ => none

/-- Run the per-file writes in order over the live sheet. -/
def run_updates (orig : List (List Value)) (i : Nat) :
    List (List Value) → List (String × Except Unit Value) →
    Except Unit (List (List Value))
  | sheet, [] => Except.ok sheet
  | sheet, (t, comp) :: rest =>
    match check_and_update orig sheet i t comp with
    | Except.error e => Except.error e
    | Except.ok s' => run_updates orig i s' rest

/-- Process one CSV file: derive the dataset name, find the identifier
column (an absent `Name_in_database` column raises `IndexError`), find the
matching row (no match: the file is skipped), then run every metric write. -/
def process_one (orig sheet : List (List Value)) (file : String) (csv : Csv) :
    Except Unit (List (List Value)) :=
  match findColIdx orig nameKey with
  | none => Except.error ()
  | some nc =>
    match matchRowIdx orig nc (data_nameS file) with
    | none => Except.ok sheet
    | some i => run_updates orig i sheet (metric_writes csv)

/-- The literal summary row appended after all files are processed. -/
def summary_row : List Value :=
  [Value.str "汇总信息", Value.str "这里可以添加具体汇总数据"]

/-- `ws.append(new_row)`. -/
def append_summary (sheet : List (List Value)) : List (List Value) :=
  sheet ++ [summary_row]

/-- The per-file loop.  Matching and column lookup always consult the
snapshot `orig` taken at load time; writes accumulate on the live sheet. -/
def run_files (orig : List (List Value)) :
    List (List Value) → List (String × Csv) → Except Unit (List (List Value))
  | sheet, [] => Except.ok sheet
  | sheet, (f, c) :: rest =>
    match process_one orig sheet f c with
    | Except.error e => Except.error e
    | Except.ok s' => run_files orig s' rest

/-- `process_csv_files`: process every CSV file against the loaded sheet,
then append the summary row. -/
def process_csv_files (sheet : List (List Value)) (files : List (String × Csv)) :
    Except Unit (List (List Value)) :=
  match run_files sheet sheet files with
  | Except.error e => Except.error e
  | Except.ok fin => Except.ok (append_summary fin)

/-- Whether every element of a list of naturals equals the head. -/
def allEqNat : List Nat → Bool
  | [] => true
  | n :: ns => ns.all (fun m => decide (m = n))

/-- Modelled from the spec: "whether all subjects have the same number of
distinct blocks" (the spec's first consistency flag; the source has no
function computing it). -/
def all_subjects_same_blocks (csv : Csv) (blockCol : String) : Bool :=
  allEqNat (perSubjectNunique csv blockCol)

/-- Modelled from the spec: "whether, for every subject, every block has the
same row count" (the spec's second consistency flag; the source has no
function computing it). -/
def per_subject_blocks_same_size (csv : Csv) (blockCol : String) : Bool :=
  ((nonNA (csv.col subjKey)).dedup).all (fun k =>
    allEqNat (groupSizes
      ((((csv.col subjKey).zip (csv.col blockCol)).filter
          (fun p => decide (p.1 = k))).map Prod.snd)))

/-- Same-size consistency across all block groups, subject ignored (the
variant recoverable from `check_trial_in_block`). -/
def all_blocks_same_size (csv : Csv) (blockCol : String) : Bool :=
  allEqNat (groupSizes (csv.col blockCol))

/-- Do two cell values hold data of the same kind (both ints, both strings)?
Mixed kinds are what makes `Series.max` raise. -/
def sameKind : Value → Value → Bool
  | Value.int _, Value.int _ => true
  | Value.str _, Value.str _ => true
  | _, _ => false

/-- A column is homogeneous when all non-null entries share one kind; this
is what `pandas.read_csv` produces for any well-formed CSV file. -/
def homogeneousCol (vs : List Value) : Bool :=
  match nonNA vs with
  | [] => true
  | v :: rest => rest.all (sameKind v)

/-- A well-formed loaded CSV: every column is homogeneous. -/
def well_formed (csv : Csv) : Bool :=
  csv.cols.all (fun c => homogeneousCol (csv.col c))

/-! ### Concrete instances used by counterexamples and witnesses -/

/-- A CSV carrying the accuracy synonym `Accuracy_col` but not `Accuracy`. -/
def csvSynOnly : Csv := { cols := ["Accuracy_col"], cells := [] }

/-- A CSV with a block column but no `Subj_idx` column. -/
def csvBlockNoSubj : Csv := { cols := ["Block"], cells := [[Value.int 1]] }

/-- A CSV with zero data rows (so every column is empty). -/
def csvEdge : Csv := { cols := ["trial", "Block"], cells := [] }

/-- A CSV with a block column (2 distinct values) and a trial column
(maximum 3). -/
def csvC6 : Csv :=
  { cols := ["Block", "trial"],
    cells := [[Value.int 1, Value.int 3], [Value.int 1, Value.int 1],
              [Value.int 2, Value.int 2]] }

/-- A CSV where subject 1 has two distinct blocks and subject 2 has one. -/
def csvC7 : Csv :=
  { cols := ["Subj_idx", "Block"],
    cells := [[Value.int 1, Value.int 1], [Value.int 1, Value.int 2],
              [Value.int 2, Value.int 1]] }

/-- A CSV consistent in every sense: each subject has 2 distinct blocks,
every block group has 2 rows, and within each subject every block has
1 row. -/
def csvC5yes : Csv :=
  { cols := ["Subj_idx", "Block"],
    cells := [[Value.int 1, Value.int 1], [Value.int 1, Value.int 2],
              [Value.int 2, Value.int 1], [Value.int 2, Value.int 2]] }

/-- A CSV inconsistent in every sense: subjects have 2 vs 1 distinct
blocks, block groups have 3 vs 1 rows, and within subject 1 the block
groups have 2 vs 1 rows. -/
def csvC5no : Csv :=
  { cols := ["Subj_idx", "Block"],
    cells := [[Value.int 1, Value.int 1], [Value.int 1, Value.int 1],
              [Value.int 1, Value.int 2], [Value.int 2, Value.int 1]] }

/-- A two-row sheet whose data row is named `A1`. -/
def sheetW : List (List Value) :=
  [[Value.str "Name_in_database", Value.str "Accuracy"],
   [Value.str "A1", Value.na]]

/-- A CSV with just an `Accuracy` column and no rows. -/
def csvW3 : Csv := { cols := ["Accuracy"], cells := [] }

/-- The sheet produced from `sheetW` by processing `sub_data_A1.csv`. -/
def sheetWout : List (List Value) :=
  [[Value.str "Name_in_database", Value.str "Accuracy"],
   [Value.str "A1", Value.str "yes"],
   summary_row]

/-- A two-row sheet with `Accuracy` as its only metric target column. -/
def sheetW4 : List (List Value) :=
  [[Value.str "Name_in_database", Value.str "Accuracy"],
   [Value.str "B2", Value.na]]

/-- A one-row CSV with just an `Accuracy` column. -/
def csvW4 : Csv := { cols := ["Accuracy"], cells := [[Value.int 1]] }

/-- The sheet produced from `sheetW4` by one `process_one` step. -/
def sheetW4out : List (List Value) :=
  [[Value.str "Name_in_database", Value.str "Accuracy"],
   [Value.str "B2", Value.str "yes"]]

/-! ### Helper lemmas -/

theorem findIdxA_some_spec {p : α → Bool} :
    ∀ (l : List α) (n : Nat), findIdxA p l = some n →
      ∀ d : α, n < l.length ∧ p (l.getD n d) = true := by
  intro l
  induction l with
  | nil => intro n h d; cases h
  | cons a as ih =>
    intro n h d
    by_cases hp : p a
    · simp [findIdxA, hp] at h
      subst h
      exact ⟨Nat.succ_le_succ (Nat.zero_le _), by simpa using hp⟩
    · simp [findIdxA, hp] at h
      obtain ⟨m, hm, rfl⟩ := h
      obtain ⟨h1, h2⟩ := ih m hm d
      exact ⟨Nat.succ_lt_succ h1, by simpa using h2⟩

theorem find?_first {p : α → Bool} :
    ∀ (l1 : List α) (c : α) (l2 : List α),
      (∀ b ∈ l1, p b = false) → p c = true →
      (l1 ++ c :: l2).find? p = some c := by
  intro l1
  induction l1 with
  | nil => intro c l2 _ hc; simp [List.find?, hc]
  | cons a as ih =>
    intro c l2 h hc
    have ha : p a = false := h a (List.mem_cons_self a as)
    simp only [List.cons_append, List.find?, ha]
    exact ih c l2 (fun b hb => h b (List.mem_cons_of_mem a hb)) hc

theorem first_present_spec {alt : List String} {csv : Csv} {c : String} :
    first_present alt csv = some c → c ∈ alt ∧ c ∈ csv.cols := by
  intro h
  refine ⟨List.mem_of_find?_eq_some h, ?_⟩
  have := List.find?_some h
  simpa using this

theorem first_present_none {alt : List String} {csv : Csv} :
    (∀ b ∈ alt, b ∉ csv.cols) → first_present alt csv = none := by
  intro h
  apply List.find?_eq_none.mpr
  intro b hb
  simpa using h b hb

theorem first_present_of_layout {alt l1 l2 : List String} {c : String} {csv : Csv} :
    alt = l1 ++ c :: l2 → (∀ b ∈ l1, b ∉ csv.cols) → c ∈ csv.cols →
    first_present alt csv = some c := by
  intro hl h1 hc
  subst hl
  exact find?_first l1 c l2 (fun b hb => by simpa using h1 b hb) (by simpa using hc)

theorem natsMax_mem : ∀ (ns : List Nat) (n : Nat), natsMax n ns ∈ n :: ns := by
  intro ns
  induction ns with
  | nil => intro n; simp [natsMax]
  | cons m ns ih =>
    intro n
    have h := ih (Nat.max n m)
    have e : natsMax n (m :: ns) = natsMax (Nat.max n m) ns := rfl
    rw [e]
    rcases List.mem_cons.mp h with h1 | h1
    · have hm : Nat.max n m = n ∨ Nat.max n m = m := by
        rcases Nat.le_total n m with h' | h'
        · exact Or.inr (Nat.max_eq_right h')
        · exact Or.inl (Nat.max_eq_left h')
      rcases hm with hm | hm
      · rw [h1, hm]; exact List.mem_cons_self _ _
      · rw [h1, hm]; exact List.mem_cons_of_mem _ (List.mem_cons_self _ _)
    · exact List.mem_cons_of_mem _ (List.mem_cons_of_mem _ h1)

theorem natsMin_mem : ∀ (ns : List Nat) (n : Nat), natsMin n ns ∈ n :: ns := by
  intro ns
  induction ns with
  | nil => intro n; simp [natsMin]
  | cons m ns ih =>
    intro n
    have h := ih (Nat.min n m)
    have e : natsMin n (m :: ns) = natsMin (Nat.min n m) ns := rfl
    rw [e]
    rcases List.mem_cons.mp h with h1 | h1
    · have hm : Nat.min n m = n ∨ Nat.min n m = m := by
        rcases Nat.le_total n m with h' | h'
        · exact Or.inl (Nat.min_eq_left h')
        · exact Or.inr (Nat.min_eq_right h')
      rcases hm with hm | hm
      · rw [h1, hm]; exact List.mem_cons_self _ _
      · rw [h1, hm]; exact List.mem_cons_of_mem _ (List.mem_cons_self _ _)
    · exact List.mem_cons_of_mem _ (List.mem_cons_of_mem _ h1)

theorem natsMax_ge : ∀ (ns : List Nat) (n : Nat),
    n ≤ natsMax n ns ∧ ∀ x ∈ ns, x ≤ natsMax n ns := by
  intro ns
  induction ns with
  | nil => intro n; exact ⟨Nat.le_refl n, by simp⟩
  | cons m ns ih =>
    intro n
    obtain ⟨h1, h2⟩ := ih (Nat.max n m)
    have e : natsMax n (m :: ns) = natsMax (Nat.max n m) ns := rfl
    rw [e]
    refine ⟨Nat.le_trans (Nat.le_max_left n m) h1, ?_⟩
    intro x hx
    rcases List.mem_cons.mp hx with rfl | hx
    · exact Nat.le_trans (Nat.le_max_right n x) h1
    · exact h2 x hx

theorem natsMin_le : ∀ (ns : List Nat) (n : Nat),
    natsMin n ns ≤ n ∧ ∀ x ∈ ns, natsMin n ns ≤ x := by
  intro ns
  induction ns with
  | nil => intro n; exact ⟨Nat.le_refl n, by simp⟩
  | cons m ns ih =>
    intro n
    obtain ⟨h1, h2⟩ := ih (Nat.min n m)
    have e : natsMin n (m :: ns) = natsMin (Nat.min n m) ns := rfl
    rw [e]
    refine ⟨Nat.le_trans h1 (Nat.min_le_left n m), ?_⟩
    intro x hx
    rcases List.mem_cons.mp hx with rfl | hx
    · exact Nat.le_trans h1 (Nat.min_le_right n x)
    · exact h2 x hx

theorem natsMax_eq_natsMin_iff {n : Nat} {ns : List Nat} :
    natsMax n ns = natsMin n ns ↔ allEqNat (n :: ns) = true := by
  constructor
  · intro h
    have hall : ∀ x ∈ n :: ns, x = natsMax n ns := by
      intro x hx
      have hub : x ≤ natsMax n ns := by
        rcases List.mem_cons.mp hx with rfl | hx'
        · exact (natsMax_ge ns x).1
        · exact (natsMax_ge ns n).2 x hx'
      have hlb : natsMin n ns ≤ x := by
        rcases List.mem_cons.mp hx with rfl | hx'
        · exact (natsMin_le ns x).1
        · exact (natsMin_le ns n).2 x hx'
      rw [h]
      exact Nat.le_antisymm (h ▸ hub) hlb
    simp only [allEqNat, List.all_eq_true]
    intro m hm
    have h1 := hall m (List.mem_cons_of_mem n hm)
    have h2 := hall n (List.mem_cons_self n ns)
    have h3 := h1.trans h2.symm
    simp [h3]
  · intro h
    simp only [allEqNat, List.all_eq_true] at h
    have hall : ∀ x ∈ n :: ns, x = n := by
      intro x hx
      rcases List.mem_cons.mp hx with rfl | hx'
      · rfl
      · simpa using h x hx'
    have h1 := hall _ (natsMax_mem ns n)
    have h2 := hall _ (natsMin_mem ns n)
    rw [h1, h2]

theorem lexLtN_irrefl : ∀ l : List Nat, lexLtN l l = false := by
  intro l
  induction l with
  | nil => rfl
  | cons a as ih => simp [lexLtN, ih]

theorem lexLtN_trans :
    ∀ {u v w : List Nat}, lexLtN u v = true → lexLtN v w = true → lexLtN u w = true := by
  intro u
  induction u with
  | nil =>
    intro v w huv hvw
    cases v with
    | nil => cases huv
    | cons b bs =>
      cases w with
      | nil => cases hvw
      | cons c cs => rfl
  | cons a as ih =>
    intro v w huv hvw
    cases v with
    | nil => cases huv
    | cons b bs =>
      cases w with
      | nil => cases hvw
      | cons c cs =>
        simp only [lexLtN, Bool.or_eq_true, Bool.and_eq_true, decide_eq_true_eq] at huv hvw ⊢
        rcases huv with hab | ⟨hab, hrest⟩
        · rcases hvw with hbc | ⟨hbc, _⟩
          · exact Or.inl (Nat.lt_trans hab hbc)
          · exact Or.inl (hbc ▸ hab)
        · rcases hvw with hbc | ⟨hbc, hrest2⟩
          · exact Or.inl (hab ▸ hbc)
          · exact Or.inr ⟨hab.trans hbc, ih hrest hrest2⟩

theorem lexLtN_total :
    ∀ u v : List Nat, lexLtN u v = true ∨ lexLtN v u = true ∨ u = v := by
  intro u
  induction u with
  | nil =>
    intro v
    cases v with
    | nil => exact Or.inr (Or.inr rfl)
    | cons b bs => exact Or.inl rfl
  | cons a as ih =>
    intro v
    cases v with
    | nil => exact Or.inr (Or.inl rfl)
    | cons b bs =>
      rcases Nat.lt_trichotomy a b with hab | hab | hab
      · exact Or.inl (by simp [lexLtN, hab])
      · rcases ih bs with h | h | h
        · exact Or.inl (by simp [lexLtN, hab, h])
        · exact Or.inr (Or.inl (by simp [lexLtN, hab, h]))
        · exact Or.inr (Or.inr (by rw [hab, h]))
      · exact Or.inr (Or.inl (by simp [lexLtN, hab]))

theorem lexLtN_asymm {u v : List Nat} (h : lexLtN u v = true) : lexLtN v u = false := by
  by_contra hc
  have hvu : lexLtN v u = true := by
    cases hvu : lexLtN v u
    · exact absurd hvu hc
    · rfl
  have := lexLtN_trans h hvu
  rw [lexLtN_irrefl] at this
  cases this

theorem valLe_refl {v : Value} (h : v ≠ Value.na) : valLe v v = true := by
  cases v with
  | na => exact absurd rfl h
  | int a => simp [valLe]
  | str s => simp [valLe, strLt, lexLtN_irrefl]

theorem strLt_false_trans {s t u : String}
    (h1 : strLt t s = false) (h2 : strLt u t = false) : strLt u s = false := by
  by_contra hc
  have hus : strLt u s = true := by
    cases hq : strLt u s
    · exact absurd hq hc
    · rfl
  unfold strLt at h1 h2 hus
  rcases lexLtN_total (List.map Char.toNat t.data) (List.map Char.toNat s.data)
    with h | h | h
  · simp [h] at h1
  · have := lexLtN_trans hus h
    simp [this] at h2
  · rw [← h] at hus
    simp [hus] at h2

theorem valLe_trans {a b c : Value} (h1 : valLe a b = true) (h2 : valLe b c = true) :
    valLe a c = true := by
  cases a with
  | na => simp [valLe] at h1
  | int x =>
    cases b with
    | na => simp [valLe] at h1
    | str _ => simp [valLe] at h1
    | int y =>
      cases c with
      | na => simp [valLe] at h2
      | int z =>
        simp only [valLe, decide_eq_true_eq] at h1 h2 ⊢
        omega
      | str _ => simp [valLe] at h2
  | str s =>
    cases b with
    | na => simp [valLe] at h1
    | int _ => simp [valLe] at h1
    | str t =>
      cases c with
      | na => simp [valLe] at h2
      | int _ => simp [valLe] at h2
      | str u =>
        simp only [valLe, Bool.not_eq_true'] at h1 h2 ⊢
        exact strLt_false_trans h1 h2

theorem valMaxStep_spec {acc x v : Value} (h : valMaxStep acc x = Except.ok v) :
    (v = acc ∨ v = x) ∧ valLe acc v = true ∧ valLe x v = true ∧ v ≠ Value.na := by
  cases acc with
  | na => cases x <;> simp [valMaxStep, pyGt] at h
  | int a =>
    cases x with
    | na => simp [valMaxStep, pyGt] at h
    | str _ => simp [valMaxStep, pyGt] at h
    | int b =>
      simp only [valMaxStep, pyGt, Except.ok.injEq] at h
      by_cases hab : a < b
      · simp [hab] at h
        subst h
        refine ⟨Or.inr rfl, ?_, ?_, by simp⟩
        · simp [valLe]; omega
        · simp [valLe]
      · simp [hab] at h
        subst h
        refine ⟨Or.inl rfl, ?_, ?_, by simp⟩
        · simp [valLe]
        · simp [valLe]; omega
  | str s =>
    cases x with
    | na => simp [valMaxStep, pyGt] at h
    | int _ => simp [valMaxStep, pyGt] at h
    | str t =>
      simp only [valMaxStep, pyGt, Except.ok.injEq] at h
      cases hg : strLt s t with
      | true =>
        rw [hg] at h
        simp at h
        subst h
        refine ⟨Or.inr rfl, ?_, ?_, by simp⟩
        · have : strLt t s = false := by
            unfold strLt at hg ⊢
            exact lexLtN_asymm hg
          simp [valLe, this]
        · have : strLt t t = false := by
            unfold strLt
            exact lexLtN_irrefl _
          simp [valLe, this]
      | false =>
        rw [hg] at h
        simp at h
        subst h
        refine ⟨Or.inl rfl, ?_, ?_, by simp⟩
        · have : strLt s s = false := by
            unfold strLt
            exact lexLtN_irrefl _
          simp [valLe, this]
        · simp [valLe, hg]

theorem foldlM_valMaxStep_spec :
    ∀ (rest : List Value) (acc v : Value), acc ≠ Value.na →
      rest.foldlM valMaxStep acc = Except.ok v →
      (v = acc ∨ v ∈ rest) ∧ valLe acc v = true ∧
        (∀ x ∈ rest, valLe x v = true) ∧ v ≠ Value.na := by
  intro rest
  induction rest with
  | nil =>
    intro acc v hna h
    simp only [List.foldlM, pure, Except.pure, Except.ok.injEq] at h
    subst h
    exact ⟨Or.inl rfl, valLe_refl hna, by simp, hna⟩
  | cons x rest ih =>
    intro acc v hna h
    rw [List.foldlM_cons] at h
    cases hstep : valMaxStep acc x with
    | error e => rw [hstep] at h; simp [Bind.bind, Except.bind] at h
    | ok acc' =>
      rw [hstep] at h
      simp only [Bind.bind, Except.bind] at h
      obtain ⟨hmem, hle1, hle2, hna'⟩ := valMaxStep_spec hstep
      obtain ⟨hv, hlev, hall, hvna⟩ := ih acc' v hna' h
      refine ⟨?_, valLe_trans hle1 hlev, ?_, hvna⟩
      · rcases hv with rfl | hv
        · rcases hmem with rfl | rfl
          · exact Or.inl rfl
          · exact Or.inr (List.mem_cons_self _ _)
        · exact Or.inr (List.mem_cons_of_mem _ hv)
      · intro y hy
        rcases List.mem_cons.mp hy with rfl | hy
        · exact valLe_trans hle2 hlev
        · exact hall y hy

theorem seriesMax_spec {vs : List Value} {v : Value}
    (h : seriesMax vs = Except.ok v) (hna : v ≠ Value.na) :
    v ∈ nonNA vs ∧ ∀ x ∈ nonNA vs, valLe x v = true := by
  unfold seriesMax at h
  cases hnn : nonNA vs with
  | nil => rw [hnn] at h; simp at h; exact absurd h.symm hna
  | cons w rest =>
    rw [hnn] at h
    have hwna : w ≠ Value.na := by
      have hw : w ∈ nonNA vs := by rw [hnn]; exact List.mem_cons_self _ _
      unfold nonNA at hw
      have := List.mem_filter.mp hw
      simpa using this.2
    obtain ⟨hv, hle, hall, _⟩ := foldlM_valMaxStep_spec rest w v hwna h
    constructor
    · rcases hv with rfl | hv
      · exact List.mem_cons_self _ _
      · exact List.mem_cons_of_mem _ hv
    · intro x hx
      rcases List.mem_cons.mp hx with rfl | hx
      · exact hle
      · exact hall x hx

theorem sameKind_shift {a b c : Value} (h1 : sameKind a b = true) (h2 : sameKind a c = true) :
    sameKind b c = true := by
  cases a <;> cases b <;> cases c <;> simp_all [sameKind]

theorem valMaxStep_total {acc x : Value} (h : sameKind acc x = true) :
    ∃ w, valMaxStep acc x = Except.ok w ∧ sameKind acc w = true := by
  cases acc with
  | na => cases x <;> simp [sameKind] at h
  | int a =>
    cases x with
    | na => simp [sameKind] at h
    | str _ => simp [sameKind] at h
    | int b =>
      by_cases hab : a < b
      · exact ⟨Value.int b, by simp [valMaxStep, pyGt, hab], by simp [sameKind]⟩
      · exact ⟨Value.int a, by simp [valMaxStep, pyGt, hab], by simp [sameKind]⟩
  | str s =>
    cases x with
    | na => simp [sameKind] at h
    | int _ => simp [sameKind] at h
    | str t =>
      cases hg : strLt s t with
      | false => exact ⟨Value.str s, by simp [valMaxStep, pyGt, hg], by simp [sameKind]⟩
      | true => exact ⟨Value.str t, by simp [valMaxStep, pyGt, hg], by simp [sameKind]⟩

theorem foldlM_valMaxStep_total :
    ∀ (rest : List Value) (acc : Value), (∀ x ∈ rest, sameKind acc x = true) →
      ∃ v, rest.foldlM valMaxStep acc = Except.ok v := by
  intro rest
  induction rest with
  | nil => intro acc _; exact ⟨acc, rfl⟩
  | cons x rest ih =>
    intro acc hall
    obtain ⟨w, hw, hkind⟩ := valMaxStep_total (hall x (List.mem_cons_self _ _))
    have hrest : ∀ y ∈ rest, sameKind w y = true := fun y hy =>
      sameKind_shift hkind (hall y (List.mem_cons_of_mem _ hy))
    obtain ⟨v, hv⟩ := ih w hrest
    refine ⟨v, ?_⟩
    rw [List.foldlM_cons, hw]
    simpa [Bind.bind, Except.bind] using hv

theorem seriesMax_total {vs : List Value} (h : homogeneousCol vs = true) :
    ∃ v, seriesMax vs = Except.ok v := by
  unfold seriesMax
  cases hnn : nonNA vs with
  | nil => exact ⟨Value.na, rfl⟩
  | cons w rest =>
    unfold homogeneousCol at h
    rw [hnn] at h
    simp only [List.all_eq_true] at h
    exact foldlM_valMaxStep_total rest w h

/-! ### Claim C2 -/

/-- C2 counterexample: on a CSV whose only column is the accuracy synonym
`Accuracy_col`, a synonym from the accuracy list is present, yet
`check_accuracy` returns "no" — so "yes iff some synonym from the accuracy
list is present" fails on the code. -/
theorem c2_counterexample :
    ¬ ((check_accuracy csvSynOnly accuracy_columns = yesVal) ↔
        accuracy_columns.any (fun c => decide (c ∈ csvSynOnly.cols)) = true) := by
  decide

/-- C2 (amended): `check_accuracy` ignores its synonym-list argument
entirely — its result is the same for any two lists, hence trivially
order-independent — and it returns "yes" precisely when the literal column
`Accuracy` is present, "no" otherwise. -/
theorem c2_theorem :
    (∀ (csv : Csv) (alt1 alt2 : List String),
       check_accuracy csv alt1 = check_accuracy csv alt2) ∧
    (∀ (csv : Csv) (alt : List String),
       (check_accuracy csv alt = yesVal ↔ "Accuracy" ∈ csv.cols) ∧
       (check_accuracy csv alt = noVal ↔ "Accuracy" ∉ csv.cols)) := by
  have hne : yesVal ≠ noVal := by decide
  have hne' : noVal ≠ yesVal := by decide
  refine ⟨fun csv alt1 alt2 => rfl, fun csv alt => ?_⟩
  by_cases h : "Accuracy" ∈ csv.cols
  · refine ⟨⟨fun _ => h, fun _ => by simp [check_accuracy, h]⟩, ?_, ?_⟩
    · intro hv
      rw [check_accuracy, if_pos h] at hv
      exact absurd hv hne
    · intro hv
      exact absurd h hv
  · refine ⟨⟨fun hv => ?_, fun hv => absurd hv h⟩, fun _ => h, fun _ => ?_⟩
    · rw [check_accuracy, if_neg h] at hv
      exact absurd hv.symm hne
    · rw [check_accuracy, if_neg h]

/-- C2 witness: the amended theorem applied to the concrete CSV that has
only the synonym column. -/
theorem c2_witness :
    check_accuracy csvSynOnly accuracy_columns = noVal :=
  ((c2_theorem.2 csvSynOnly accuracy_columns).2).mpr (by decide)

/-! ### Claim C10 -/

/-- C10: `check_block_min_max` returns the sentinel pair exactly when no
block synonym is present, or `Subj_idx` is absent, or the per-subject
grouping is empty — a condition strictly wider than "no acceptable synonym
column". -/
theorem c10_theorem (csv : Csv) :
    check_block_min_max csv block_columns = (noVal, noVal) ↔
      (first_present block_columns csv = none ∨
       subjKey ∉ csv.cols ∨
       ∃ c, first_present block_columns csv = some c ∧
         perSubjectNunique csv c = []) := by
  constructor
  · intro h
    unfold check_block_min_max at h
    cases hf : first_present block_columns csv with
    | none => exact Or.inl rfl
    | some c =>
      rw [hf] at h
      simp only at h
      by_cases hs : subjKey ∈ csv.cols
      · rw [if_pos hs] at h
        cases hp : perSubjectNunique csv c with
        | nil => exact Or.inr (Or.inr ⟨c, rfl, hp⟩)
        | cons n ns =>
          rw [hp] at h
          simp only [Prod.mk.injEq] at h
          exact absurd h.1 (by simp [noVal])
      · exact Or.inr (Or.inl hs)
  · intro h
    rcases h with h | h | ⟨c, hc, hp⟩
    · unfold check_block_min_max
      rw [h]
    · unfold check_block_min_max
      cases hf : first_present block_columns csv with
      | none => rfl
      | some c =>
        simp only
        rw [if_neg h]
    · unfold check_block_min_max
      rw [hc]
      simp only
      by_cases hs : subjKey ∈ csv.cols
      · rw [if_pos hs, hp]
      · rw [if_neg hs]

/-- C10 witness: the concrete CSV with a block column but no `Subj_idx`
yields the sentinel pair even though a block synonym is present. -/
theorem c10_witness :
    check_block_min_max csvBlockNoSubj block_columns = (noVal, noVal) :=
  (c10_theorem csvBlockNoSubj).mpr (Or.inr (Or.inl (by decide)))

/-! ### Claim C9 -/

/-- C9: on any well-formed CSV (every column homogeneous, as `read_csv`
guarantees — including empty columns, all-NaN columns, and zero data rows)
every metric in the battery returns a value rather than raising. -/
theorem c9_theorem (csv : Csv) (hwf : well_formed csv = true) :
    ∀ p ∈ metric_writes csv, ∃ v, p.2 = Except.ok v := by
  intro p hp
  simp only [metric_writes, List.mem_cons, List.not_mem_nil, or_false] at hp
  rcases hp with rfl | rfl | rfl | rfl | rfl | rfl | rfl | rfl | rfl
  · exact ⟨_, rfl⟩
  · exact ⟨_, rfl⟩
  · show ∃ v, check_num_trails csv trial_columns = Except.ok v
    unfold check_num_trails
    cases hf : first_present trial_columns csv with
    | none => exact ⟨noVal, rfl⟩
    | some c =>
      have hc : c ∈ csv.cols := (first_present_spec hf).2
      have hcol : homogeneousCol (csv.col c) = true := by
        unfold well_formed at hwf
        simp only [List.all_eq_true] at hwf
        exact hwf c hc
      exact seriesMax_total hcol
  · exact ⟨_, rfl⟩
  · exact ⟨_, rfl⟩
  · exact ⟨_, rfl⟩
  · exact ⟨_, rfl⟩
  · exact ⟨_, rfl⟩
  · exact ⟨_, rfl⟩

/-- C9 witness: the theorem applied to the zero-row CSV. -/
theorem c9_witness :
    well_formed csvEdge = true ∧
      ∀ p ∈ metric_writes csvEdge, ∃ v, p.2 = Except.ok v :=
  ⟨by decide, c9_theorem csvEdge (by decide)⟩

/-! ### Claim C6 -/

/-- C6: when some block synonym is present, `check_num_blocks` returns the
distinct-value count of the first present synonym in priority order; when
some trial synonym is present, `check_num_trails` returns `Series.max` of
the first present trial synonym; and a non-NaN `Series.max` result is an
element of the column's non-null values that bounds them all. -/
theorem c6_theorem :
    (∀ (csv : Csv) (l1 : List String) (c : String) (l2 : List String),
       block_columns = l1 ++ c :: l2 → (∀ b ∈ l1, b ∉ csv.cols) → c ∈ csv.cols →
       check_num_blocks csv block_columns = Value.int (nunique (csv.col c))) ∧
    (∀ (csv : Csv) (l1 : List String) (c : String) (l2 : List String),
       trial_columns = l1 ++ c :: l2 → (∀ b ∈ l1, b ∉ csv.cols) → c ∈ csv.cols →
       check_num_trails csv trial_columns = seriesMax (csv.col c)) ∧
    (∀ (vs : List Value) (v : Value), seriesMax vs = Except.ok v → v ≠ Value.na →
       v ∈ nonNA vs ∧ ∀ x ∈ nonNA vs, valLe x v = true) := by
  refine ⟨?_, ?_, fun vs v h hna => seriesMax_spec h hna⟩
  · intro csv l1 c l2 hl h1 hc
    have hf := first_present_of_layout hl h1 hc
    unfold check_num_blocks
    rw [hf]
  · intro csv l1 c l2 hl h1 hc
    have hf := first_present_of_layout hl h1 hc
    unfold check_num_trails
    rw [hf]


/-- C6 witness: the theorem applied to the concrete CSV; `Block` is the
first present block synonym and `trial` the first present trial synonym. -/
theorem c6_witness :
    check_num_blocks csvC6 block_columns = Value.int (nunique (csvC6.col "Block")) ∧
    check_num_trails csvC6 trial_columns = seriesMax (csvC6.col "trial") ∧
    nunique (csvC6.col "Block") = 2 ∧
    seriesMax (csvC6.col "trial") = Except.ok (Value.int 3) :=
  ⟨c6_theorem.1 csvC6 ["block", "blocks"] "Block"
      ["Blocks", "BlockNumber", "Block_count", "Int.Block", "block_type",
       "BlockID", "Block_Type", "NumBlock", "blocki"]
      rfl (by decide) (by decide),
   c6_theorem.2.1 csvC6 ["trials"] "trial" ["Trial", "NTrialInCond", "triali"]
      rfl (by decide) (by decide),
   by decide, by decide⟩

/-! ### Claim C7 -/

/-- C7: when a block synonym and `Subj_idx` are present and the grouping is
nonempty, `check_block_min_max` returns the max and min across subjects of
the per-subject distinct-block counts (the max/min are attained counts and
bound all counts); and with no block synonym and no `Subj_idx` it returns
the sentinel pair. -/
theorem c7_theorem :
    (∀ (csv : Csv) (c : String) (n : Nat) (ns : List Nat),
       first_present block_columns csv = some c → subjKey ∈ csv.cols →
       perSubjectNunique csv c = n :: ns →
       check_block_min_max csv block_columns =
         (Value.int (natsMax n ns), Value.int (natsMin n ns)) ∧
       natsMax n ns ∈ n :: ns ∧ natsMin n ns ∈ n :: ns ∧
       (∀ x ∈ n :: ns, natsMin n ns ≤ x ∧ x ≤ natsMax n ns)) ∧
    (∀ csv : Csv, first_present block_columns csv = none → subjKey ∉ csv.cols →
       check_block_min_max csv block_columns = (noVal, noVal)) := by
  constructor
  · intro csv c n ns hf hs hp
    refine ⟨?_, natsMax_mem ns n, natsMin_mem ns n, ?_⟩
    · unfold check_block_min_max
      rw [hf]
      simp only
      rw [if_pos hs, hp]
    · intro x hx
      rcases List.mem_cons.mp hx with rfl | hx'
      · exact ⟨(natsMin_le ns x).1, (natsMax_ge ns x).1⟩
      · exact ⟨(natsMin_le ns n).2 x hx', (natsMax_ge ns n).2 x hx'⟩
  · intro csv hf _
    unfold check_block_min_max
    rw [hf]


/-- C7 witness: the theorem applied to the concrete CSV with per-subject
distinct-block counts `[2, 1]`. -/
theorem c7_witness :
    check_block_min_max csvC7 block_columns =
      (Value.int (natsMax 2 [1]), Value.int (natsMin 2 [1])) ∧
    natsMax 2 [1] = 2 ∧ natsMin 2 [1] = 1 :=
  ⟨(c7_theorem.1 csvC7 "Block" 2 [1] (by decide) (by decide) (by decide)).1,
   by decide, by decide⟩

/-! ### Claim C5 -/



/-- C5 counterexample: the battery writes exactly the nine fixed target
columns, and no written column carries a yes/no consistency flag: `csvC5yes`
is consistent in every reading and `csvC5no` inconsistent in every reading,
yet no target column is written "yes" for the former and "no" for the
latter. -/
theorem c5_counterexample :
    ((metric_writes csvC5yes).map Prod.fst = target_names ∧
     (metric_writes csvC5no).map Prod.fst = target_names) ∧
    (all_subjects_same_blocks csvC5yes "Block" = true ∧
     all_blocks_same_size csvC5yes "Block" = true ∧
     per_subject_blocks_same_size csvC5yes "Block" = true) ∧
    (all_subjects_same_blocks csvC5no "Block" = false ∧
     all_blocks_same_size csvC5no "Block" = false ∧
     per_subject_blocks_same_size csvC5no "Block" = false) ∧
    (∀ t ∈ target_names,
       ¬ (written_ok csvC5yes t = some yesVal ∧
          written_ok csvC5no t = some noVal)) := by
  decide

/-- C5 (amended): the program writes no yes/no consistency flags; the two
consistency conditions are instead recoverable as equality of written max
and min: all subjects have the same number of distinct blocks iff
`Max_Num_Blocks` equals `Min_Num_Blocks`, and every block group has the
same row count iff `Max_Trial_in_block` equals `Min_Trial_in_block` (when
those metrics are computed from present columns). -/
theorem c5_theorem :
    (∀ (csv : Csv) (c : String) (n : Nat) (ns : List Nat),
       first_present block_columns csv = some c → subjKey ∈ csv.cols →
       perSubjectNunique csv c = n :: ns →
       ((check_block_min_max csv block_columns).1 =
          (check_block_min_max csv block_columns).2 ↔
        all_subjects_same_blocks csv c = true)) ∧
    (∀ (csv : Csv) (c : String) (n : Nat) (ns : List Nat),
       first_present block_columns csv = some c →
       groupSizes (csv.col c) = n :: ns →
       ((check_trial_in_block csv block_columns).1 =
          (check_trial_in_block csv block_columns).2 ↔
        all_blocks_same_size csv c = true)) := by
  constructor
  · intro csv c n ns hf hs hp
    have he : check_block_min_max csv block_columns =
        (Value.int (natsMax n ns), Value.int (natsMin n ns)) := by
      unfold check_block_min_max
      rw [hf]
      simp only
      rw [if_pos hs, hp]
    rw [he]
    unfold all_subjects_same_blocks
    rw [hp]
    constructor
    · intro hh
      simp only [Value.int.injEq, Nat.cast_inj] at hh
      exact natsMax_eq_natsMin_iff.mp hh
    · intro hh
      have h2 := natsMax_eq_natsMin_iff.mpr hh
      simp [h2]
  · intro csv c n ns hf hp
    have he : check_trial_in_block csv block_columns =
        (Value.int (natsMax n ns), Value.int (natsMin n ns)) := by
      unfold check_trial_in_block
      rw [hf]
      simp only
      rw [hp]
    rw [he]
    unfold all_blocks_same_size
    rw [hp]
    constructor
    · intro hh
      simp only [Value.int.injEq, Nat.cast_inj] at hh
      exact natsMax_eq_natsMin_iff.mp hh
    · intro hh
      have h2 := natsMax_eq_natsMin_iff.mpr hh
      simp [h2]

/-- C5 witness: the amended equivalence applied to the consistent CSV. -/
theorem c5_witness :
    (check_block_min_max csvC5yes block_columns).1 =
      (check_block_min_max csvC5yes block_columns).2 :=
  (c5_theorem.1 csvC5yes "Block" 2 [2] (by decide) (by decide) (by decide)).mpr
    (by decide)

/-! ### Indexing lemmas for the sheet model -/

theorem getD_append_lt {α : Type} :
    ∀ (l1 l2 : List α) (k : Nat) (d : α), k < l1.length →
      (l1 ++ l2).getD k d = l1.getD k d := by
  intro l1
  induction l1 with
  | nil => intro l2 k d h; exact absurd h (Nat.not_lt_zero k)
  | cons a as ih =>
    intro l2 k d h
    cases k with
    | zero => rfl
    | succ k => exact ih l2 k d (Nat.lt_of_succ_lt_succ h)

theorem getD_append_len {α : Type} :
    ∀ (l1 l2 : List α) (d : α), (l1 ++ l2).getD l1.length d = l2.getD 0 d := by
  intro l1
  induction l1 with
  | nil => intro l2 d; rfl
  | cons a as ih => intro l2 d; exact ih l2 d

theorem getD_append_add {α : Type} :
    ∀ (l1 l2 : List α) (k : Nat) (d : α),
      (l1 ++ l2).getD (l1.length + k) d = l2.getD k d := by
  intro l1
  induction l1 with
  | nil => intro l2 k d; simp
  | cons a as ih =>
    intro l2 k d
    have e : (a :: as).length + k = (as.length + k) + 1 := by
      simp only [List.length_cons]
      omega
    rw [List.cons_append, e]
    exact ih l2 k d

theorem getD_set_self {α : Type} :
    ∀ (l : List α) (i : Nat) (v d : α), i < l.length → (l.set i v).getD i d = v := by
  intro l
  induction l with
  | nil => intro i v d h; exact absurd h (Nat.not_lt_zero i)
  | cons a as ih =>
    intro i v d h
    cases i with
    | zero => rfl
    | succ i => exact ih i v d (Nat.lt_of_succ_lt_succ h)

theorem getD_set_ne {α : Type} :
    ∀ (l : List α) (i k : Nat) (v d : α), i ≠ k →
      (l.set i v).getD k d = l.getD k d := by
  intro l
  induction l with
  | nil => intro i k v d _; rfl
  | cons a as ih =>
    intro i k v d h
    cases i with
    | zero =>
      cases k with
      | zero => exact absurd rfl h
      | succ k => rfl
    | succ i =>
      cases k with
      | zero => rfl
      | succ k => exact ih i k v d (fun he => h (by rw [he]))

theorem getD_ge_length {α : Type} :
    ∀ (l : List α) (k : Nat) (d : α), l.length ≤ k → l.getD k d = d := by
  intro l
  induction l with
  | nil => intro k d _; cases k <;> rfl
  | cons a as ih =>
    intro k d h
    cases k with
    | zero => exact absurd h (by simp)
    | succ k => exact ih k d (Nat.le_of_succ_le_succ h)

theorem set_ge_length {α : Type} :
    ∀ (l : List α) (i : Nat) (v : α), l.length ≤ i → l.set i v = l := by
  intro l
  induction l with
  | nil => intro i v _; rfl
  | cons a as ih =>
    intro i v h
    cases i with
    | zero => exact absurd h (by simp)
    | succ i =>
      show a :: as.set i v = a :: as
      rw [ih i v (Nat.le_of_succ_le_succ h)]

theorem getD_replicate_lt {α : Type} :
    ∀ (m k : Nat) (a d : α), k < m → (List.replicate m a).getD k d = a := by
  intro m
  induction m with
  | zero => intro k a d h; exact absurd h (Nat.not_lt_zero k)
  | succ m ih =>
    intro k a d h
    cases k with
    | zero => rfl
    | succ k => exact ih k a d (Nat.lt_of_succ_lt_succ h)

theorem pad_get_self (row : List Value) (j : Nat) (v : Value)
    (h : row.length ≤ j) :
    (row ++ List.replicate (j - row.length) Value.na ++ [v]).getD j Value.na = v := by
  obtain ⟨m, rfl⟩ : ∃ m, j = row.length + m := ⟨j - row.length, by omega⟩
  have e2 : row.length + m - row.length = m := by omega
  rw [e2, List.append_assoc, getD_append_add]
  have h3 := getD_append_add (List.replicate m Value.na) [v] 0 Value.na
  simp only [List.length_replicate, Nat.add_zero] at h3
  simpa using h3

theorem pad_get_ne (row : List Value) (j k : Nat) (v : Value)
    (hle : row.length ≤ j) (hne : j ≠ k) :
    (row ++ List.replicate (j - row.length) Value.na ++ [v]).getD k Value.na =
      row.getD k Value.na := by
  obtain ⟨m, rfl⟩ : ∃ m, j = row.length + m := ⟨j - row.length, by omega⟩
  have e2 : row.length + m - row.length = m := by omega
  rw [e2, List.append_assoc]
  by_cases hk : k < row.length
  · exact getD_append_lt row _ k Value.na hk
  · have hk' : row.length ≤ k := Nat.le_of_not_lt hk
    rw [getD_ge_length row k _ hk']
    obtain ⟨p, rfl⟩ : ∃ p, k = row.length + p := ⟨k - row.length, by omega⟩
    rw [getD_append_add]
    have hpm : p ≠ m := by omega
    by_cases hp : p < m
    · rw [getD_append_lt _ _ p Value.na (by simpa using hp)]
      exact getD_replicate_lt m p Value.na Value.na hp
    · apply getD_ge_length
      simp only [List.length_append, List.length_replicate, List.length_cons,
        List.length_nil]
      omega

theorem setCellRow_self (row : List Value) (j : Nat) (v : Value) :
    (setCellRow row j v).getD j Value.na = v := by
  unfold setCellRow
  by_cases h : j < row.length
  · rw [if_pos h]
    exact getD_set_self row j v Value.na h
  · rw [if_neg h]
    exact pad_get_self row j v (Nat.le_of_not_lt h)

theorem setCellRow_ne (row : List Value) (j k : Nat) (v : Value) (hne : j ≠ k) :
    (setCellRow row j v).getD k Value.na = row.getD k Value.na := by
  unfold setCellRow
  by_cases h : j < row.length
  · rw [if_pos h]
    exact getD_set_ne row j k v Value.na hne
  · rw [if_neg h]
    exact pad_get_ne row j k v (Nat.le_of_not_lt h) hne

/-! ### Claim C8 -/

/-- C8: appending the trailing summary row leaves every cell of every data
row unchanged, and the appended row is exactly the two fixed strings. -/
theorem c8_theorem (sheet : List (List Value)) :
    (∀ k, k < sheet.length →
       (append_summary sheet).getD k [] = sheet.getD k []) ∧
    (append_summary sheet).getD sheet.length [] =
      [Value.str "汇总信息", Value.str "这里可以添加具体汇总数据"] := by
  constructor
  · intro k hk
    exact getD_append_lt sheet [summary_row] k [] hk
  · rw [append_summary, getD_append_len]
    rfl

/-- C8 witness: the theorem applied to a one-row sheet. -/
theorem c8_witness :
    (append_summary [[Value.int 3]]).getD 0 [] = [Value.int 3] ∧
    (append_summary [[Value.int 3]]).getD 1 [] =
      [Value.str "汇总信息", Value.str "这里可以添加具体汇总数据"] :=
  ⟨(c8_theorem [[Value.int 3]]).1 0 (by decide), (c8_theorem [[Value.int 3]]).2⟩

/-! ### Driver lemmas -/

theorem check_and_update_cases {orig sheet s' : List (List Value)} {i : Nat}
    {t : String} {comp : Except Unit Value}
    (h : check_and_update orig sheet i t comp = Except.ok s') :
    (findColIdx orig t = none ∧ s' = sheet) ∨
    (∃ j v, findColIdx orig t = some j ∧ comp = Except.ok v ∧
       s' = sheet.set i (setCellRow (sheet.getD i []) j v)) := by
  unfold check_and_update at h
  cases hf : findColIdx orig t with
  | none =>
    rw [hf] at h
    simp only [Except.ok.injEq] at h
    exact Or.inl ⟨rfl, h.symm⟩
  | some j =>
    rw [hf] at h
    cases comp with
    | error e => simp at h
    | ok v =>
      simp only [Except.ok.injEq] at h
      exact Or.inr ⟨j, v, rfl, rfl, h.symm⟩

theorem findColIdx_inj {orig : List (List Value)} {t1 t2 : String} {j : Nat}
    (h1 : findColIdx orig t1 = some j) (h2 : findColIdx orig t2 = some j) :
    t1 = t2 := by
  unfold findColIdx at h1 h2
  cases orig with
  | nil => cases h1
  | cons header rest =>
    have s1 := (findIdxA_some_spec header j h1 Value.na).2
    have s2 := (findIdxA_some_spec header j h2 Value.na).2
    simp only [decide_eq_true_eq] at s1 s2
    rw [s1] at s2
    injection s2

theorem matchRowIdx_spec {orig : List (List Value)} {nc k : Nat} {key : String}
    (h : matchRowIdx orig nc key = some k) :
    (orig.getD k []).getD nc Value.na = Value.str key := by
  unfold matchRowIdx at h
  have := (findIdxA_some_spec orig k h []).2
  simpa using this

theorem run_updates_length :
    ∀ (ws : List (String × Except Unit Value)) (orig sheet s' : List (List Value))
      (i : Nat), run_updates orig i sheet ws = Except.ok s' →
      s'.length = sheet.length := by
  intro ws
  induction ws with
  | nil =>
    intro orig sheet s' i h
    simp only [run_updates, Except.ok.injEq] at h
    rw [← h]
  | cons p rest ih =>
    intro orig sheet s' i h
    obtain ⟨t, comp⟩ := p
    unfold run_updates at h
    cases hc : check_and_update orig sheet i t comp with
    | error e => rw [hc] at h; simp at h
    | ok s1 =>
      rw [hc] at h
      have hlen := ih orig s1 s' i h
      rcases check_and_update_cases hc with ⟨_, rfl⟩ | ⟨j, v, _, _, rfl⟩
      · exact hlen
      · rw [hlen]
        simp

theorem run_updates_frame :
    ∀ (ws : List (String × Except Unit Value)) (orig sheet s' : List (List Value))
      (i : Nat), run_updates orig i sheet ws = Except.ok s' →
      ∀ k, k ≠ i → s'.getD k [] = sheet.getD k [] := by
  intro ws
  induction ws with
  | nil =>
    intro orig sheet s' i h k _
    simp only [run_updates, Except.ok.injEq] at h
    rw [← h]
  | cons p rest ih =>
    intro orig sheet s' i h k hk
    obtain ⟨t, comp⟩ := p
    unfold run_updates at h
    cases hc : check_and_update orig sheet i t comp with
    | error e => rw [hc] at h; simp at h
    | ok s1 =>
      rw [hc] at h
      have hrest := ih orig s1 s' i h k hk
      rcases check_and_update_cases hc with ⟨_, rfl⟩ | ⟨j, v, _, _, rfl⟩
      · exact hrest
      · rw [hrest]
        exact getD_set_ne sheet i k _ [] (fun he => hk (by rw [he]))

theorem run_updates_keep_col :
    ∀ (ws : List (String × Except Unit Value)) (orig sheet s' : List (List Value))
      (i j : Nat), run_updates orig i sheet ws = Except.ok s' →
      (∀ t comp, (t, comp) ∈ ws → findColIdx orig t ≠ some j) →
      getCell s' i j = getCell sheet i j := by
  intro ws
  induction ws with
  | nil =>
    intro orig sheet s' i j h _
    simp only [run_updates, Except.ok.injEq] at h
    rw [← h]
  | cons p rest ih =>
    intro orig sheet s' i j h hno
    obtain ⟨t, comp⟩ := p
    unfold run_updates at h
    cases hc : check_and_update orig sheet i t comp with
    | error e => rw [hc] at h; simp at h
    | ok s1 =>
      rw [hc] at h
      have hrest := ih orig s1 s' i j h
        (fun t' comp' hm => hno t' comp' (List.mem_cons_of_mem _ hm))
      rcases check_and_update_cases hc with ⟨_, rfl⟩ | ⟨j', v, hsome, _, rfl⟩
      · exact hrest
      · rw [hrest]
        have hjj : j' ≠ j := by
          intro he
          exact hno t comp (List.mem_cons_self _ _) (he ▸ hsome)
        unfold getCell
        by_cases hl : i < sheet.length
        · rw [getD_set_self sheet i _ [] hl]
          exact setCellRow_ne _ j' j v hjj
        · rw [set_ge_length sheet i _ (Nat.le_of_not_lt hl)]

theorem run_updates_written :
    ∀ (ws : List (String × Except Unit Value)) (orig sheet s' : List (List Value))
      (i : Nat), run_updates orig i sheet ws = Except.ok s' → i < sheet.length →
      (ws.map Prod.fst).Nodup →
      ∀ t v j, (t, Except.ok v) ∈ ws → findColIdx orig t = some j →
        getCell s' i j = v := by
  intro ws
  induction ws with
  | nil =>
    intro orig sheet s' i h hl hnd t v j hmem hj
    simp at hmem
  | cons p rest ih =>
    intro orig sheet s' i h hl hnd t v j hmem hj
    obtain ⟨t0, comp0⟩ := p
    unfold run_updates at h
    cases hc : check_and_update orig sheet i t0 comp0 with
    | error e => rw [hc] at h; simp at h
    | ok s1 =>
      rw [hc] at h
      have hnd1 : (rest.map Prod.fst).Nodup := by
        simp only [List.map_cons] at hnd
        exact (List.nodup_cons.mp hnd).2
      have hnotin : t0 ∉ rest.map Prod.fst := by
        simp only [List.map_cons] at hnd
        exact (List.nodup_cons.mp hnd).1
      rcases List.mem_cons.mp hmem with heq | hmem'
      · have ht : t = t0 := congrArg Prod.fst heq
        have hcomp : comp0 = Except.ok v := (congrArg Prod.snd heq).symm
        subst ht
        subst hcomp
        rcases check_and_update_cases hc with ⟨hnone, rfl⟩ | ⟨j', v', hsome, hok, rfl⟩
        · rw [hnone] at hj; cases hj
        · rw [hsome] at hj
          injection hj with hj'
          subst hj'
          injection hok with hv
          subst hv
          have hkeep : getCell s' i j' = getCell (sheet.set i
              (setCellRow (sheet.getD i []) j' v)) i j' := by
            apply run_updates_keep_col rest orig _ s' i j' h
            intro t' comp' hm hsome'
            have ht' : t' = t := findColIdx_inj hsome' hsome
            exact hnotin (ht' ▸ List.mem_map.mpr ⟨(t', comp'), hm, rfl⟩)
          rw [hkeep]
          unfold getCell
          rw [getD_set_self sheet i _ [] hl]
          exact setCellRow_self _ j' v
      · have hl1 : i < s1.length := by
          rcases check_and_update_cases hc with ⟨_, rfl⟩ | ⟨j', v', _, _, rfl⟩
          · exact hl
          · simpa using hl
        exact ih orig s1 s' i h hl1 hnd1 t v j hmem' hj

theorem process_one_cases {orig sheet s' : List (List Value)} {f : String}
    {csv : Csv} (h : process_one orig sheet f csv = Except.ok s') :
    ∃ nc, findColIdx orig nameKey = some nc ∧
      ((matchRowIdx orig nc (data_nameS f) = none ∧ s' = sheet) ∨
       (∃ i, matchRowIdx orig nc (data_nameS f) = some i ∧
          run_updates orig i sheet (metric_writes csv) = Except.ok s')) := by
  unfold process_one at h
  cases hf : findColIdx orig nameKey with
  | none => rw [hf] at h; simp at h
  | some nc =>
    rw [hf] at h
    have h' : (match matchRowIdx orig nc (data_nameS f) with
        | none => Except.ok sheet
        | some i => run_updates orig i sheet (metric_writes csv)) =
        Except.ok s' := h
    cases hm : matchRowIdx orig nc (data_nameS f) with
    | none =>
      rw [hm] at h'
      simp only [Except.ok.injEq] at h'
      exact ⟨nc, rfl, Or.inl ⟨hm, h'.symm⟩⟩
    | some i =>
      rw [hm] at h'
      exact ⟨nc, rfl, Or.inr ⟨i, hm, h'⟩⟩

theorem process_one_frame {orig sheet s' : List (List Value)} {f : String}
    {csv : Csv} (h : process_one orig sheet f csv = Except.ok s') :
    ∀ k, s'.getD k [] ≠ sheet.getD k [] →
      ∃ nc, findColIdx orig nameKey = some nc ∧
        matchRowIdx orig nc (data_nameS f) = some k := by
  intro k hk
  obtain ⟨nc, hnc, hcase⟩ := process_one_cases h
  rcases hcase with ⟨hm, rfl⟩ | ⟨i, hm, hr⟩
  · exact absurd rfl hk
  · by_cases hik : k = i
    · subst hik
      exact ⟨nc, hnc, hm⟩
    · exact absurd (run_updates_frame _ orig sheet s' i hr k hik) hk

theorem process_one_length {orig sheet s' : List (List Value)} {f : String}
    {csv : Csv} (h : process_one orig sheet f csv = Except.ok s') :
    s'.length = sheet.length := by
  obtain ⟨nc, _, hcase⟩ := process_one_cases h
  rcases hcase with ⟨_, rfl⟩ | ⟨i, _, hr⟩
  · rfl
  · exact run_updates_length _ orig sheet s' i hr

theorem run_files_length :
    ∀ (files : List (String × Csv)) (orig sheet s' : List (List Value)),
      run_files orig sheet files = Except.ok s' → s'.length = sheet.length := by
  intro files
  induction files with
  | nil =>
    intro orig sheet s' h
    simp only [run_files, Except.ok.injEq] at h
    rw [← h]
  | cons fc rest ih =>
    intro orig sheet s' h
    obtain ⟨f, csv⟩ := fc
    unfold run_files at h
    cases hp : process_one orig sheet f csv with
    | error e => rw [hp] at h; simp at h
    | ok s1 =>
      rw [hp] at h
      rw [ih orig s1 s' h]
      exact process_one_length hp

theorem run_files_frame :
    ∀ (files : List (String × Csv)) (orig sheet s' : List (List Value)),
      run_files orig sheet files = Except.ok s' →
      ∀ k, s'.getD k [] ≠ sheet.getD k [] →
        ∃ f csv nc, (f, csv) ∈ files ∧ findColIdx orig nameKey = some nc ∧
          matchRowIdx orig nc (data_nameS f) = some k := by
  intro files
  induction files with
  | nil =>
    intro orig sheet s' h k hk
    simp only [run_files, Except.ok.injEq] at h
    rw [← h] at hk
    exact absurd rfl hk
  | cons fc rest ih =>
    intro orig sheet s' h k hk
    obtain ⟨f, csv⟩ := fc
    unfold run_files at h
    cases hp : process_one orig sheet f csv with
    | error e => rw [hp] at h; simp at h
    | ok s1 =>
      rw [hp] at h
      by_cases h1 : s1.getD k [] = sheet.getD k []
      · have hk1 : s'.getD k [] ≠ s1.getD k [] := by rw [h1]; exact hk
        obtain ⟨f', csv', nc, hmem, hnc, hm⟩ := ih orig s1 s' h k hk1
        exact ⟨f', csv', nc, List.mem_cons_of_mem _ hmem, hnc, hm⟩
      · obtain ⟨nc, hnc, hm⟩ := process_one_frame hp k h1
        exact ⟨f, csv, nc, List.mem_cons_self _ _, hnc, hm⟩

/-! ### Claim C3 -/

/-- C3: over a whole run, a data row's cells change only if its
`Name_in_database` cell (in the loaded snapshot) equals — by exact,
case-sensitive string equality — the derived dataset name of some processed
CSV file; and a file whose derived name matches no row leaves the sheet
untouched. -/
theorem c3_theorem :
    (∀ (sheet fin : List (List Value)) (files : List (String × Csv)) (k : Nat),
       process_csv_files sheet files = Except.ok fin → k < sheet.length →
       fin.getD k [] ≠ sheet.getD k [] →
       ∃ f csv nc, (f, csv) ∈ files ∧ findColIdx sheet nameKey = some nc ∧
         (sheet.getD k []).getD nc Value.na = Value.str (data_nameS f)) ∧
    (∀ (orig sheet : List (List Value)) (file : String) (csv : Csv) (nc : Nat),
       findColIdx orig nameKey = some nc →
       matchRowIdx orig nc (data_nameS file) = none →
       process_one orig sheet file csv = Except.ok sheet) := by
  constructor
  · intro sheet fin files k h hk hne
    unfold process_csv_files at h
    cases hr : run_files sheet sheet files with
    | error e => rw [hr] at h; simp at h
    | ok mid =>
      rw [hr] at h
      simp only [Except.ok.injEq] at h
      subst h
      have hlen : mid.length = sheet.length := run_files_length files sheet sheet mid hr
      have hfin : (append_summary mid).getD k [] = mid.getD k [] := by
        unfold append_summary
        exact getD_append_lt mid [summary_row] k [] (by rw [hlen]; exact hk)
      rw [hfin] at hne
      obtain ⟨f, csv, nc, hmem, hnc, hm⟩ := run_files_frame files sheet sheet mid hr k hne
      exact ⟨f, csv, nc, hmem, hnc, matchRowIdx_spec hm⟩
  · intro orig sheet file csv nc hnc hm
    unfold process_one
    rw [hnc]
    simp only
    rw [hm]




/-- C3 witness: on a concrete run the changed row's identifier equals the
derived name, and a file deriving `a1` (case difference only) is skipped. -/
theorem c3_witness :
    (∃ f csv nc, (f, csv) ∈ [("sub_data_A1.csv", csvW3)] ∧
       findColIdx sheetW nameKey = some nc ∧
       (sheetW.getD 1 []).getD nc Value.na = Value.str (data_nameS f)) ∧
    process_one sheetW sheetW "sub_data_a1.csv" csvW3 = Except.ok sheetW :=
  ⟨c3_theorem.1 sheetW sheetWout [("sub_data_A1.csv", csvW3)] 1
      (by decide) (by decide) (by decide),
   c3_theorem.2 sheetW sheetW "sub_data_a1.csv" csvW3 0 (by decide) (by decide)⟩

/-! ### Claim C4 -/

/-- C4: every synonym-searching metric returns the sentinel "no" (or the
sentinel pair) when none of its synonyms is present, independently per
metric; a target column absent from the header leaves the sheet unchanged
for that metric; and in a successful per-file update every present target
column of the matched row still receives its computed value. -/
theorem c4_theorem :
    (∀ csv : Csv, (∀ b ∈ accuracy_columns, b ∉ csv.cols) →
       check_accuracy csv accuracy_columns = noVal) ∧
    (∀ (csv : Csv) (alt : List String), (∀ b ∈ alt, b ∉ csv.cols) →
       check_num_blocks csv alt = noVal) ∧
    (∀ (csv : Csv) (alt : List String), (∀ b ∈ alt, b ∉ csv.cols) →
       check_num_trails csv alt = Except.ok noVal) ∧
    (∀ (csv : Csv) (alt : List String), (∀ b ∈ alt, b ∉ csv.cols) →
       check_rt_confidence csv alt = noVal) ∧
    (∀ (csv : Csv) (alt : List String), (∀ b ∈ alt, b ∉ csv.cols) →
       check_trial_in_block csv alt = (noVal, noVal)) ∧
    (∀ (csv : Csv) (alt : List String), (∀ b ∈ alt, b ∉ csv.cols) →
       check_block_min_max csv alt = (noVal, noVal)) ∧
    (∀ (orig sheet : List (List Value)) (i : Nat) (t : String)
       (comp : Except Unit Value), findColIdx orig t = none →
       check_and_update orig sheet i t comp = Except.ok sheet) ∧
    (∀ (orig sheet fin : List (List Value)) (file : String) (csv : Csv)
       (nc i : Nat), process_one orig sheet file csv = Except.ok fin →
       findColIdx orig nameKey = some nc →
       matchRowIdx orig nc (data_nameS file) = some i → i < sheet.length →
       ∀ t v j, (t, Except.ok v) ∈ metric_writes csv →
         findColIdx orig t = some j → getCell fin i j = v) := by
  refine ⟨?_, ?_, ?_, ?_, ?_, ?_, ?_, ?_⟩
  · intro csv h
    unfold check_accuracy
    rw [if_neg (h "Accuracy" (by decide))]
  · intro csv alt h
    unfold check_num_blocks
    rw [first_present_none h]
  · intro csv alt h
    unfold check_num_trails
    rw [first_present_none h]
  · intro csv alt h
    unfold check_rt_confidence
    rw [first_present_none h]
  · intro csv alt h
    unfold check_trial_in_block
    rw [first_present_none h]
  · intro csv alt h
    unfold check_block_min_max
    rw [first_present_none h]
  · intro orig sheet i t comp h
    unfold check_and_update
    rw [h]
  · intro orig sheet fin file csv nc i h hnc hm hl t v j hmem hj
    obtain ⟨nc', hnc', hcase⟩ := process_one_cases h
    rw [hnc] at hnc'
    injection hnc' with he
    subst he
    rcases hcase with ⟨hm', _⟩ | ⟨i', hm', hr⟩
    · rw [hm] at hm'; cases hm'
    · rw [hm] at hm'
      injection hm' with he'
      subst he'
      have hnd : ((metric_writes csv).map Prod.fst).Nodup := by
        have e : (metric_writes csv).map Prod.fst = target_names := rfl
        rw [e]
        decide
      exact run_updates_written _ orig sheet fin i hr hl hnd t v j hmem hj




/-- C4 witness: on concrete data, a metric with no synonym present returns
the sentinel, a missing target column leaves the sheet unchanged, and the
present `Accuracy` target still receives its computed "yes". -/
theorem c4_witness :
    check_num_blocks csvW4 block_columns = noVal ∧
    check_and_update sheetW4 sheetW4 1 "Num_Blocks" (Except.ok (Value.int 5)) =
      Except.ok sheetW4 ∧
    getCell sheetW4out 1 1 = yesVal :=
  ⟨c4_theorem.2.1 csvW4 block_columns (by decide),
   c4_theorem.2.2.2.2.2.2.1 sheetW4 sheetW4 1 "Num_Blocks"
     (Except.ok (Value.int 5)) (by decide),
   c4_theorem.2.2.2.2.2.2.2 sheetW4 sheetW4 sheetW4out "sub_data_B2.csv" csvW4
     0 1 (by decide) (by decide) (by decide) (by decide) "Accuracy" yesVal 1
     (by decide) (by decide)⟩

/-! ### Claim C1: lemmas about the filename derivation -/

theorem isPre_self_append : ∀ (p l : List Char), isPre p (p ++ l) = true := by
  intro p
  induction p with
  | nil => intro l; rfl
  | cons a as ih =>
    intro l
    simp only [List.cons_append, isPre, beq_self_eq_true, Bool.true_and]
    exact ih l

theorem isPre_append_of_le :
    ∀ (p xs ys : List Char), p.length ≤ xs.length →
      isPre p (xs ++ ys) = isPre p xs := by
  intro p
  induction p with
  | nil => intro xs ys _; rfl
  | cons a as ih =>
    intro xs ys h
    cases xs with
    | nil => exact absurd h (by simp)
    | cons x xs' =>
      simp only [List.cons_append, isPre, List.append_eq]
      rw [ih xs' ys (by simp only [List.length_cons] at h; omega)]

theorem containsSub_cons_false {sep : List Char} {c : Char} {rest : List Char}
    (h : containsSub sep (c :: rest) = false) :
    isPre sep (c :: rest) = false ∧ containsSub sep rest = false := by
  have h' := h
  unfold containsSub at h'
  exact Bool.or_eq_false_iff.mp h'

theorem dropAfterFirst_none {sep : List Char} :
    ∀ s : List Char, containsSub sep s = false → dropAfterFirst sep s = none := by
  intro s
  induction s with
  | nil => intro _; rfl
  | cons c rest ih =>
    intro h
    obtain ⟨h1, h2⟩ := containsSub_cons_false h
    unfold dropAfterFirst
    rw [h1]
    simp only [Bool.false_eq_true, if_false]
    exact ih h2

theorem lastPieceF_no_occ {sep : List Char} :
    ∀ (fuel : Nat) (s : List Char), containsSub sep s = false →
      lastPieceF sep fuel s = s := by
  intro fuel s h
  cases fuel with
  | zero => rfl
  | succ n =>
    unfold lastPieceF
    rw [dropAfterFirst_none s h]

theorem dropAfterFirst_head (t : List Char) :
    dropAfterFirst dataTok (dataTok ++ t) = some t := by
  have h1 : dataTok ++ t = 'd' :: (['a', 't', 'a', '_'] ++ t) := rfl
  have hpre : isPre dataTok ('d' :: (['a', 't', 'a', '_'] ++ t)) = true := by
    rw [← h1]
    exact isPre_self_append dataTok t
  rw [h1]
  unfold dropAfterFirst
  rw [hpre]
  simp only [if_true]
  rfl

theorem splitLast_clean (t : List Char) (h : containsSub dataTok t = false) :
    splitLastPiece dataTok (dataTok ++ t) = t := by
  unfold splitLastPiece
  have hlen : (dataTok ++ t).length = t.length + 5 := by
    simp only [List.length_append]
    simp [dataTok]
    omega
  rw [hlen]
  have e : t.length + 5 = (t.length + 4) + 1 := rfl
  rw [e]
  unfold lastPieceF
  rw [dropAfterFirst_head t]
  exact lastPieceF_no_occ _ t h

theorem containsSub_append_csv :
    ∀ t : List Char, containsSub dataTok t = false →
      containsSub dataTok (t ++ csvTok) = false := by
  have ha : (('a' : Char) == '.') = false := by decide
  have ht : (('t' : Char) == '.') = false := by decide
  have hu : (('_' : Char) == '.') = false := by decide
  intro t
  induction t with
  | nil => intro _; decide
  | cons c t ih =>
    intro h
    obtain ⟨h1, h2⟩ := containsSub_cons_false h
    show containsSub dataTok ((c :: t) ++ csvTok) = false
    rw [List.cons_append]
    unfold containsSub
    rw [ih h2, Bool.or_false]
    match t with
    | [] => simp [dataTok, csvTok, isPre, ha]
    | [a1] => simp [dataTok, csvTok, isPre, ht]
    | [a1, a2] => simp [dataTok, csvTok, isPre, ha]
    | [a1, a2, a3] => simp [dataTok, csvTok, isPre, hu]
    | a1 :: a2 :: a3 :: a4 :: t4 =>
      have e : c :: ((a1 :: a2 :: a3 :: a4 :: t4) ++ csvTok) =
          (c :: a1 :: a2 :: a3 :: a4 :: t4) ++ csvTok := rfl
      rw [e, isPre_append_of_le dataTok (c :: a1 :: a2 :: a3 :: a4 :: t4) csvTok
        (by simp [dataTok])]
      exact h1

theorem replaceAllF_nil (pat : List Char) :
    ∀ fuel : Nat, replaceAllF pat fuel [] = [] := by
  intro fuel
  cases fuel <;> rfl

theorem replaceAll_clean :
    ∀ (fuel : Nat) (t : List Char), t.length + 4 ≤ fuel →
      containsSub csvTok t = false → replaceAllF csvTok fuel (t ++ csvTok) = t := by
  have hc1 : (('c' : Char) == '.') = false := by decide
  have hs1 : (('s' : Char) == '.') = false := by decide
  have hv1 : (('v' : Char) == '.') = false := by decide
  intro fuel
  induction fuel with
  | zero => intro t h _; omega
  | succ n ih =>
    intro t hlen hc
    cases t with
    | nil =>
      show replaceAllF csvTok (n + 1) ([] ++ csvTok) = []
      rw [List.nil_append]
      have hcond : (isPre csvTok ('.' :: ['c', 's', 'v']) && !csvTok.isEmpty) = true := by
        decide
      show replaceAllF csvTok (n + 1) ('.' :: ['c', 's', 'v']) = []
      unfold replaceAllF
      rw [hcond]
      simp only [if_true]
      exact replaceAllF_nil csvTok n
    | cons c t' =>
      obtain ⟨h1, h2⟩ := containsSub_cons_false hc
      have hp : isPre csvTok (c :: (t' ++ csvTok)) = false := by
        match t' with
        | [] => simp [csvTok, isPre, hc1]
        | [a1] => simp [csvTok, isPre, hs1]
        | [a1, a2] => simp [csvTok, isPre, hv1]
        | a1 :: a2 :: a3 :: t3 =>
          have e : c :: ((a1 :: a2 :: a3 :: t3) ++ csvTok) =
              (c :: a1 :: a2 :: a3 :: t3) ++ csvTok := rfl
          rw [e, isPre_append_of_le csvTok (c :: a1 :: a2 :: a3 :: t3) csvTok
            (by simp [csvTok])]
          exact h1
      show replaceAllF csvTok (n + 1) ((c :: t') ++ csvTok) = c :: t'
      rw [List.cons_append]
      unfold replaceAllF
      rw [hp]
      simp only [Bool.false_and, Bool.false_eq_true, if_false]
      have hlen' : t'.length + 4 ≤ n := by
        simp only [List.length_cons] at hlen
        omega
      rw [ih t' hlen' h2]

/-- C1 (amended): for a filename of the form `'data_' + name + '.csv'` where
`name` contains neither `'data_'` nor `'.csv'` as a substring, the derived
dataset name equals `name`; in general the code takes the portion of the
filename after the last occurrence of `'data_'` and deletes every occurrence
of `'.csv'` (not only a trailing extension), so names containing those
tokens are mangled. -/
theorem c1_theorem (nm : List Char)
    (h1 : containsSub dataTok nm = false) (h2 : containsSub csvTok nm = false) :
    data_name (dataTok ++ nm ++ csvTok) = nm := by
  unfold data_name
  rw [List.append_assoc]
  rw [splitLast_clean (nm ++ csvTok) (containsSub_append_csv nm h1)]
  unfold replaceAllSub
  have hlen : (nm ++ csvTok).length = nm.length + 4 := by
    simp only [List.length_append]
    simp [csvTok]
  rw [hlen]
  exact replaceAll_clean (nm.length + 4) nm (Nat.le_refl _) h2

/-- C1 counterexample: the filename `data_x.csvy.csv` carries the prefix and
the extension around the base name `x.csvy`, but the derived name is `xy`,
not `x.csvy` — the code also deletes the interior `.csv` occurrence, so
"nothing else removed or altered" fails. -/
theorem c1_counterexample :
    data_name (dataTok ++ ('x' :: csvTok ++ ['y']) ++ csvTok) ≠
      'x' :: csvTok ++ ['y'] := by
  decide

/-- C1 witness: the amended theorem applied to the clean base name `A1`. -/
theorem c1_witness :
    containsSub dataTok ['A', '1'] = false ∧
    containsSub csvTok ['A', '1'] = false ∧
    data_name (dataTok ++ ['A', '1'] ++ csvTok) = ['A', '1'] :=
  ⟨by decide, by decide, c1_theorem ['A', '1'] (by decide) (by decide)⟩
